import Mathlib

/-!
Verification of the reference-population subsystem of the lexical-editor
plugin: the reference extractor and change detector
(admin/src/utils/reference-extractor.ts), the tree merger
(server/src/utils/lexical-populate.ts) and the bulk orchestration in the
populate controller (server/src/routes + controller).

JavaScript values relevant to the walkers are embedded shallowly:
 - primitive JSON values become `JLit`;
 - a lexical node object becomes `NodeFields` (the fields the code reads
   or writes) plus a `children` representation, flattened into the
   constructors of `JItem`: children absent, children present but not an
   array, or children an array of items;
 - JavaScript truthiness is made explicit (`jsTruthy`, `truthyS`);
 - fallible code (a walk that can throw a TypeError) returns `Except`.
-/

/-- A primitive JSON value (no nested objects needed by the walkers). -/
inductive JLit where
  | nullV
  | boolV (b : Bool)
  | numV (n : Int)
  | strV (s : String)
deriving DecidableEq

/-- JavaScript truthiness of a primitive value. -/
def jsTruthy : JLit → Bool
  | .nullV => false
  | .boolV b => b
  | .numV n => if n = 0 then false else true
  | .strV s => if s = "" then false else true

/-- Truthiness of an optional string field (absent and empty are falsy). -/
def truthyS : Option String → Bool
  | none => false
  | some s => if s = "" then false else true

/-- The thumbnail format record of a resolved media file
(`media.formats.thumbnail`). -/
structure ThumbFormat where
  url : Option String := none
deriving DecidableEq

/-- The formats record of a resolved media file (`media.formats`). -/
structure Formats where
  thumbnail : Option ThumbFormat := none
deriving DecidableEq

/-- A resolved media record as read by `populateImageNode`
(lexical-populate.ts lines 111 to 126). -/
structure ResolvedMedia where
  documentId : String
  url : Option String := none
  alternativeText : Option String := none
  caption : Option String := none
  width : Option Int := none
  height : Option Int := none
  formats : Option Formats := none
  mime : Option String := none
  size : Option Int := none
  updatedAt : Option String := none
deriving DecidableEq

/-- A resolved entry record as read by `populateEntryNode` and
`findTitleField` (lexical-populate.ts lines 132 to 182).  The five title
candidate fields can hold any primitive value, so they are `Option JLit`. -/
structure ResolvedEntry where
  documentId : String
  contentType : Option String := none
  title : Option JLit := none
  name : Option JLit := none
  label : Option JLit := none
  headline : Option JLit := none
  subject : Option JLit := none
  publishedAt : Option String := none
  updatedAt : Option String := none
  locale : Option String := none
deriving DecidableEq

/-- The metadata object attached to a reference node.  `populateImageNode`
overwrites the nine media keys, `populateEntryNode` overwrites the five
entry keys; any other (custom) keys are carried in `custom` and preserved
by the object spread `{...(node.metadata || {}), ...}`. -/
structure Meta where
  url : Option String := none
  alternativeText : Option String := none
  caption : Option String := none
  width : Option Int := none
  height : Option Int := none
  formats : Option Formats := none
  mime : Option String := none
  size : Option Int := none
  mUpdatedAt : Option String := none
  mTitle : Option JLit := none
  mPublishedAt : Option String := none
  mLocale : Option String := none
  mStatus : Option String := none
  custom : List (String × JLit) := []
deriving DecidableEq

/-- The fields of a lexical node object that the extractor and the merger
read or write.  Fields the code never touches are carried opaquely in
`extra` and preserved by every object spread `{...node, ...}`. -/
structure NodeFields where
  type : Option String := none
  documentId : Option String := none
  contentType : Option String := none
  title : Option JLit := none
  src : Option String := none
  metadata : Option Meta := none
  data : Option ResolvedEntry := none
  extra : List (String × JLit) := []
deriving DecidableEq

/-- An element of a `children` array.  The `children` field of a node is
flattened into three constructors: absent, present but not an array
(`Array.isArray` fails), or an array of items.  A non-object element is
`prim`. -/
inductive JItem where
  | prim (v : JLit)
  | nodeNoChildren (f : NodeFields)
  | nodeBadChildren (f : NodeFields) (v : JLit)
  | node (f : NodeFields) (children : List JItem)

mutual

/-- Decidable equality for items (the automatic derivation does not handle
the nested list of children). -/
def JItem.decEq : (a b : JItem) → Decidable (a = b)
  | .prim v, .prim w =>
    if h : v = w then isTrue (by rw [h])
    else isFalse (by intro hh; injection hh; contradiction)
  | .nodeNoChildren f, .nodeNoChildren g =>
    if h : f = g then isTrue (by rw [h])
    else isFalse (by intro hh; injection hh; contradiction)
  | .nodeBadChildren f v, .nodeBadChildren g w =>
    if h1 : f = g then
      if h2 : v = w then isTrue (by rw [h1, h2])
      else isFalse (by intro hh; injection hh; contradiction)
    else isFalse (by intro hh; injection hh; contradiction)
  | .node f cs, .node g ds =>
    if h1 : f = g then
      match JItem.decEqList cs ds with
      | isTrue h2 => isTrue (by rw [h1, h2])
      | isFalse h2 => isFalse (by intro hh; injection hh; contradiction)
    else isFalse (by intro hh; injection hh; contradiction)
  | .prim _, .nodeNoChildren _ => isFalse (by intro hh; exact JItem.noConfusion hh)
  | .prim _, .nodeBadChildren _ _ => isFalse (by intro hh; exact JItem.noConfusion hh)
  | .prim _, .node _ _ => isFalse (by intro hh; exact JItem.noConfusion hh)
  | .nodeNoChildren _, .prim _ => isFalse (by intro hh; exact JItem.noConfusion hh)
  | .nodeNoChildren _, .nodeBadChildren _ _ => isFalse (by intro hh; exact JItem.noConfusion hh)
  | .nodeNoChildren _, .node _ _ => isFalse (by intro hh; exact JItem.noConfusion hh)
  | .nodeBadChildren _ _, .prim _ => isFalse (by intro hh; exact JItem.noConfusion hh)
  | .nodeBadChildren _ _, .nodeNoChildren _ => isFalse (by intro hh; exact JItem.noConfusion hh)
  | .nodeBadChildren _ _, .node _ _ => isFalse (by intro hh; exact JItem.noConfusion hh)
  | .node _ _, .prim _ => isFalse (by intro hh; exact JItem.noConfusion hh)
  | .node _ _, .nodeNoChildren _ => isFalse (by intro hh; exact JItem.noConfusion hh)
  | .node _ _, .nodeBadChildren _ _ => isFalse (by intro hh; exact JItem.noConfusion hh)

/-- Decidable equality for lists of items. -/
def JItem.decEqList : (a b : List JItem) → Decidable (a = b)
  | [], [] => isTrue rfl
  | [], _ :: _ => isFalse (by intro hh; exact List.noConfusion hh)
  | _ :: _, [] => isFalse (by intro hh; exact List.noConfusion hh)
  | x :: xs, y :: ys =>
    match JItem.decEq x y, JItem.decEqList xs ys with
    | isTrue h1, isTrue h2 => isTrue (by rw [h1, h2])
    | isFalse h1, _ => isFalse (by intro hh; injection hh; contradiction)
    | _, isFalse h2 => isFalse (by intro hh; injection hh; contradiction)

end

instance : DecidableEq JItem := JItem.decEq

/-! ## Reference extractor (admin/src/utils/reference-extractor.ts) -/

/-- A media reference: identity is `documentId` alone. -/
structure MediaReference where
  documentId : String
deriving DecidableEq

/-- An entry reference.  The extractor copies `contentType` from the node
without checking its presence, so it can be absent. -/
structure EntryReference where
  documentId : String
  contentType : Option String := none
deriving DecidableEq

/-- The result of the extractor: the two accumulator arrays `mediaRefs`
and `entryRefs`. -/
structure ExtractedReferences where
  media : List MediaReference := []
  entries : List EntryReference := []
deriving DecidableEq

/-- One step of `traverseNodes` on a single node object: the two
conditionals of reference-extractor.ts lines 310 to 330.  The first branch
fires when `node.type === "strapi-image"` and `node.documentId` is truthy
and appends `{documentId}` to `mediaRefs` unless an element with the same
`documentId` is already there; the second (an `else if`) does the same for
`"strapi-entry"` with the `(documentId, contentType)` pair, copying
`contentType` as it is on the node. -/
def extractStep (st : ExtractedReferences) (f : NodeFields) : ExtractedReferences :=
  if f.type = some "strapi-image" then
    match f.documentId with
    | some d =>
      if d = "" then st
      else if st.media.any (fun r => decide (r.documentId = d)) then st
      else { st with media := st.media ++ [{ documentId := d }] }
    | none => st
  else if f.type = some "strapi-entry" then
    match f.documentId with
    | some d =>
      if d = "" then st
      else if st.entries.any
          (fun r => decide (r.documentId = d ∧ r.contentType = f.contentType)) then st
      else { st with entries := st.entries ++ [{ documentId := d, contentType := f.contentType }] }
    | none => st
  else st

/-- The recursive walk `traverseNodes` (reference-extractor.ts lines 305
to 337), threading the accumulators.  The walk is depth-first pre-order:
the node itself is inspected, then its `children` array when present.
A `null` element makes the JavaScript code throw a TypeError (it reads
`node.type` with no null guard), modelled as `Except.error`; every other
primitive element is skipped, because property access on a non-null
primitive yields `undefined`. -/
def traverseNodes : List JItem → ExtractedReferences → Except Unit ExtractedReferences
  | [], st => .ok st
  | .prim .nullV :: _, _ => .error ()
  | .prim _ :: xs, st => traverseNodes xs st
  | .nodeNoChildren f :: xs, st => traverseNodes xs (extractStep st f)
  | .nodeBadChildren f _ :: xs, st => traverseNodes xs (extractStep st f)
  | .node f cs :: xs, st =>
    match traverseNodes cs (extractStep st f) with
    | .ok st2 => traverseNodes xs st2
    | .error u => .error u

/-- The value of the `children` property of `root` when present. -/
inductive ChildrenVal where
  | cNotArr (v : JLit)
  | cArr (items : List JItem)
deriving DecidableEq

/-- The value of the `root` property of an editor state when present. -/
inductive RootVal where
  | rNonObj (v : JLit)
  | rObj (children : Option ChildrenVal)
deriving DecidableEq

/-- An arbitrary value handed to `extractReferences` or stored in a
lexical field of an entity: either a primitive (including null) or an
object with an optional `root` property. -/
inductive EditorDoc where
  | dNonObj (v : JLit)
  | dObj (root : Option RootVal)
deriving DecidableEq

/-- The optional chain `editorState?.root?.children`: `none` stands for
a missing or undefined result at any link of the chain. -/
def rootChildren : EditorDoc → Option ChildrenVal
  | .dNonObj _ => none
  | .dObj none => none
  | .dObj (some (.rNonObj _)) => none
  | .dObj (some (.rObj cs)) => cs

/-- Truthiness of `editorState?.root?.children`: an array is truthy even
when empty; a non-array value is truthy by `jsTruthy`. -/
def truthyChildren : Option ChildrenVal → Bool
  | none => false
  | some (.cNotArr v) => jsTruthy v
  | some (.cArr _) => true

/-- `extractReferences` (reference-extractor.ts lines 297 to 345).  The
guard `if (!editorState?.root?.children)` returns the empty result; when
`children` is a truthy non-array, `traverseNodes` returns at once and the
result is also empty, so every case other than an array of children
collapses to the empty result. -/
def extractReferences (d : EditorDoc) : Except Unit ExtractedReferences :=
  match rootChildren d with
  | some (.cArr items) => traverseNodes items {}
  | _ => .ok {}

/-! ## Change detector (reference-extractor.ts lines 369 to 393) -/

/-- `hasReferencesChanged`: compares the two media lists by length and
one-directional identity membership, then the two entry lists by length
and pair-identity membership, with early true returns rendered as nested
conditionals. -/
def hasReferencesChanged (oldRefs newRefs : ExtractedReferences) : Bool :=
  if oldRefs.media.length ≠ newRefs.media.length then true
  else if newRefs.media.any
      (fun nm => !oldRefs.media.any (fun om => decide (om.documentId = nm.documentId))) then true
  else if oldRefs.entries.length ≠ newRefs.entries.length then true
  else if newRefs.entries.any
      (fun ne => !oldRefs.entries.any
        (fun oe => decide (oe.documentId = ne.documentId ∧ oe.contentType = ne.contentType))) then true
  else false

instance {ε α : Type} [DecidableEq ε] [DecidableEq α] : DecidableEq (Except ε α) := fun a b =>
  match a, b with
  | .ok x, .ok y =>
    if h : x = y then isTrue (by rw [h])
    else isFalse (by intro hh; injection hh; contradiction)
  | .error u, .error w =>
    if h : u = w then isTrue (by rw [h])
    else isFalse (by intro hh; injection hh; contradiction)
  | .ok _, .error _ => isFalse (by intro hh; exact Except.noConfusion hh)
  | .error _, .ok _ => isFalse (by intro hh; exact Except.noConfusion hh)

example : extractReferences (.dNonObj .nullV) = .ok {} := by rfl
example : extractReferences (.dObj none) = .ok {} := by rfl
example :
    extractReferences (.dObj (some (.rObj (some (.cArr
      [.nodeNoChildren { type := some "strapi-image", documentId := some "m1" },
       .nodeNoChildren { type := some "strapi-image", documentId := some "m1" },
       .prim (.strV "x"),
       .nodeNoChildren { type := some "strapi-entry", documentId := some "e1" }])))))
    = .ok { media := [{ documentId := "m1" }],
            entries := [{ documentId := "e1", contentType := none }] } := by
  simp [extractReferences, rootChildren, traverseNodes, extractStep]
example :
    extractReferences (.dObj (some (.rObj (some (.cArr [.prim .nullV])))))
    = .error () := by
  simp [extractReferences, rootChildren, traverseNodes]

/-! ## Tree merger (server/src/utils/lexical-populate.ts)

The merger takes a `PopulateContext` whose optional `populatedMedia` and
`populatedEntries` arrays come from the batch resolver.  The functions
`populateImageNode` and `populateEntryNode` in the source receive the node
object and return either a fresh enriched object or the very input object;
here they are embedded at field level (they never touch `children`, which
`populateNode` processes afterwards in all cases). -/

/-- The populate context of lexical-populate.ts lines 7 to 11, without the
opaque framework handle.  Both arrays are optional fields. -/
structure PopulateContext where
  populatedMedia : Option (List ResolvedMedia) := none
  populatedEntries : Option (List ResolvedEntry) := none
deriving DecidableEq

/-- The value the resolved entry holds under a candidate title field
name. -/
def candidateValue (e : ResolvedEntry) : String → Option JLit
  | "title" => e.title
  | "name" => e.name
  | "label" => e.label
  | "headline" => e.headline
  | "subject" => e.subject
  | _ => none

/-- Whether `entry[candidate] && typeof entry[candidate] === "string"`
holds: the value is a truthy string. -/
def isTruthyString : Option JLit → Bool
  | some (.strV s) => if s = "" then false else true
  | _ => false

/-- `findTitleField` (lexical-populate.ts lines 172 to 182): the first of
the five candidate names whose value on the entry is a truthy string. -/
def findTitleField (e : ResolvedEntry) : Option String :=
  ["title", "name", "label", "headline", "subject"].find?
    (fun c => isTruthyString (candidateValue e c))

/-- The chain `populatedMedia.formats?.thumbnail?.url`. -/
def thumbnailUrl (m : ResolvedMedia) : Option String :=
  m.formats.bind (fun fs => fs.thumbnail.bind (fun t => t.url))

/-- JavaScript `a || b` on optional strings: `a` when truthy, else `b`. -/
def jsOrS (a b : Option String) : Option String :=
  if truthyS a then a else b

/-- The fresh metadata object of lexical-populate.ts lines 114 to 125:
the spread of the prior metadata (or `{}` when absent) with the nine
media keys overwritten from the resolved record. -/
def imageMeta (prior : Option Meta) (m : ResolvedMedia) : Meta :=
  { prior.getD {} with
      url := m.url
      alternativeText := m.alternativeText
      caption := m.caption
      width := m.width
      height := m.height
      formats := m.formats
      mime := m.mime
      size := m.size
      mUpdatedAt := m.updatedAt }

/-- The fresh metadata object of lexical-populate.ts lines 157 to 164:
the spread of the prior metadata (or `{}`) with the five entry keys
overwritten; `status` is `"published"` when `publishedAt` is truthy and
`"draft"` otherwise. -/
def entryMeta (prior : Option Meta) (e : ResolvedEntry) (title : Option JLit) : Meta :=
  { prior.getD {} with
      mTitle := title
      mPublishedAt := e.publishedAt
      mUpdatedAt := e.updatedAt
      mLocale := e.locale
      mStatus := some (if truthyS e.publishedAt then "published" else "draft") }

/-- `populateImageNode` (lexical-populate.ts lines 95 to 127) at field
level.  The guard `!node.documentId || !context.populatedMedia` and a
failed `find` return the input node unchanged; on a hit, a fresh object is
built with `src` replaced by the thumbnail url, falling back to the full
url, falling back to the prior `src`, and `metadata` replaced by
`imageMeta`.  The lookup matches on `documentId` alone. -/
def populateImageNode (ctx : PopulateContext) (f : NodeFields) : NodeFields :=
  match f.documentId, ctx.populatedMedia with
  | some d, some ms =>
    if d = "" then f
    else
      match ms.find? (fun m => decide (m.documentId = d)) with
      | none => f
      | some m =>
        { f with
            src := jsOrS (thumbnailUrl m) (jsOrS m.url f.src)
            metadata := some (imageMeta f.metadata m) }
  | _, _ => f

/-- `populateEntryNode` (lexical-populate.ts lines 132 to 167) at field
level.  The guard needs truthy `documentId` and `contentType` on the node
and a present `populatedEntries` array; the lookup `find` compares
`entry.documentId === node.documentId` only, so `contentType` plays no
part in it.  On a hit, `title` becomes the value of the found title field,
or keeps the prior node title when none is found; `metadata` is replaced
by `entryMeta`; `data` stores the whole resolved record. -/
def populateEntryNode (ctx : PopulateContext) (f : NodeFields) : NodeFields :=
  match f.documentId, f.contentType, ctx.populatedEntries with
  | some d, some ct, some es =>
    if d = "" then f
    else if ct = "" then f
    else
      match es.find? (fun e => decide (e.documentId = d)) with
      | none => f
      | some e =>
        let title : Option JLit :=
          match findTitleField e with
          | some c => candidateValue e c
          | none => f.title
        { f with
            title := title
            metadata := some (entryMeta f.metadata e title)
            data := some e }
  | _, _, _ => f

/-- The `switch (node.type)` of `populateNode` (lexical-populate.ts lines
72 to 82): dispatch on the type tag, all other types pass through. -/
def populateSwitch (ctx : PopulateContext) (f : NodeFields) : NodeFields :=
  if f.type = some "strapi-image" then populateImageNode ctx f
  else if f.type = some "strapi-entry" then populateEntryNode ctx f
  else f

/-- `populateNodes` together with the body of `populateNode`
(lexical-populate.ts lines 50 to 90), fused into one list walker:
non-object elements pass through untouched, node fields go through the
type switch, and a `children` array is rebuilt recursively afterwards
(absent or non-array `children` are left alone). -/
def populateNodes (ctx : PopulateContext) : List JItem → List JItem
  | [] => []
  | .prim v :: xs => .prim v :: populateNodes ctx xs
  | .nodeNoChildren f :: xs => .nodeNoChildren (populateSwitch ctx f) :: populateNodes ctx xs
  | .nodeBadChildren f v :: xs => .nodeBadChildren (populateSwitch ctx f) v :: populateNodes ctx xs
  | .node f cs :: xs => .node (populateSwitch ctx f) (populateNodes ctx cs) :: populateNodes ctx xs

/-- `populateNode` (lexical-populate.ts lines 66 to 90) on a single item,
expressed through the list walker. -/
def populateNode (ctx : PopulateContext) : JItem → JItem
  | .prim v => .prim v
  | .nodeNoChildren f => .nodeNoChildren (populateSwitch ctx f)
  | .nodeBadChildren f v => .nodeBadChildren (populateSwitch ctx f) v
  | .node f cs => .node (populateSwitch ctx f) (populateNodes ctx cs)

/-- Sample resolved media record of spec scenario A. -/
def mediaA : ResolvedMedia :=
  { documentId := "m1"
    url := some "/new.png"
    formats := some { thumbnail := some { url := some "/new-thumb.png" } } }

/-- Sample image node of spec scenarios A and B. -/
def imageNodeA : NodeFields :=
  { type := some "strapi-image", documentId := some "m1", src := some "/old.png" }

/-- Expected merged image node of spec scenario A. -/
def imageNodeAMerged : NodeFields :=
  { type := some "strapi-image"
    documentId := some "m1"
    src := some "/new-thumb.png"
    metadata := some { url := some "/new.png"
                       formats := some { thumbnail := some { url := some "/new-thumb.png" } } } }

example :
    populateNode { populatedMedia := some [mediaA] } (.nodeNoChildren imageNodeA)
    = .nodeNoChildren imageNodeAMerged := by
  simp [populateNode, populateSwitch, populateImageNode, imageMeta, thumbnailUrl, jsOrS,
    truthyS, mediaA, imageNodeA, imageNodeAMerged]

example :
    populateNode { populatedMedia := some [] } (.nodeNoChildren imageNodeA)
    = .nodeNoChildren imageNodeA := by
  simp [populateNode, populateSwitch, populateImageNode, imageNodeA]

/-! ## Aliasing effect of the merger on its input

`populateNode` starts from a shallow copy `{...node}` and, on a hit,
`populateImageNode` and `populateEntryNode` build fresh objects, so in
those cases the input node object is never written to.  But on a guard
failure or a lookup miss both functions `return node`, the very input
object; the subsequent statement
`populatedNode.children = await populateNodes(populatedNode.children, context)`
then writes the populated children array into the input node.  For input
trees with no internal sharing (always the case for a tree parsed from
JSON), the value of the input tree after the call is therefore computed by
`inputAfterNodes` below: a reference node whose populate call returned the
input object and that carries a children array ends up holding its
populated children; every other node keeps its fields, while its children
elements are transformed recursively. -/

/-- Whether `populateImageNode` returns its input object: the guard
`!node.documentId || !context.populatedMedia` fails or the `find` misses
(lexical-populate.ts lines 96 to 107). -/
def imageReturnsInput (ctx : PopulateContext) (f : NodeFields) : Bool :=
  match f.documentId, ctx.populatedMedia with
  | some d, some ms =>
    if d = "" then true
    else (ms.find? (fun m => decide (m.documentId = d))).isNone
  | _, _ => true

/-- Whether `populateEntryNode` returns its input object
(lexical-populate.ts lines 133 to 147). -/
def entryReturnsInput (ctx : PopulateContext) (f : NodeFields) : Bool :=
  match f.documentId, f.contentType, ctx.populatedEntries with
  | some d, some ct, some es =>
    if d = "" then true
    else if ct = "" then true
    else (es.find? (fun e => decide (e.documentId = d))).isNone
  | _, _, _ => true

/-- Whether the object produced by the type switch of `populateNode` is
the input node object itself (the default arm keeps the shallow copy, so
only the two reference arms can return the input). -/
def returnsInputNode (ctx : PopulateContext) (f : NodeFields) : Bool :=
  if f.type = some "strapi-image" then imageReturnsInput ctx f
  else if f.type = some "strapi-entry" then entryReturnsInput ctx f
  else false

/-- The value of the input list after `populateNodes` ran on it, tracking
the in-place `children` assignment described above. -/
def inputAfterNodes (ctx : PopulateContext) : List JItem → List JItem
  | [] => []
  | .prim v :: xs => .prim v :: inputAfterNodes ctx xs
  | .nodeNoChildren f :: xs => .nodeNoChildren f :: inputAfterNodes ctx xs
  | .nodeBadChildren f v :: xs => .nodeBadChildren f v :: inputAfterNodes ctx xs
  | .node f cs :: xs =>
    (if returnsInputNode ctx f then JItem.node f (populateNodes ctx cs)
     else JItem.node f (inputAfterNodes ctx cs)) :: inputAfterNodes ctx xs

/-- No node of the list is a reference node that both returns its input
object from the populate call and carries a children array: exactly the
trees on which the merger performs no in-place write. -/
def noAliasedChildNode (ctx : PopulateContext) : List JItem → Bool
  | [] => true
  | .prim _ :: xs => noAliasedChildNode ctx xs
  | .nodeNoChildren _ :: xs => noAliasedChildNode ctx xs
  | .nodeBadChildren _ _ :: xs => noAliasedChildNode ctx xs
  | .node f cs :: xs =>
    !returnsInputNode ctx f && noAliasedChildNode ctx cs && noAliasedChildNode ctx xs

/-! ## Populate orchestrator (controller and lexical-populate.ts) -/

/-- An entity with a lexical field.  `eid` stands for all the fields the
populate pass copies through the spread `{...entity, [fieldName]: ...}`. -/
structure Entity where
  eid : Nat := 0
  content : EditorDoc
deriving DecidableEq

/-- The children array of the lexical field of an entity, when the field
holds an object of shape `{root: {children: [...]}}`. -/
def lexicalItems (e : Entity) : Option (List JItem) :=
  match rootChildren e.content with
  | some (.cArr items) => some items
  | _ => none

/-- `populateLexicalReferences` (lexical-populate.ts lines 16 to 45) with
the populate pass abstracted: the guard `!lexicalField?.root?.children`
(or a non-array `children`, which `populateNodes` hands back untouched)
returns the entity unchanged, and the try/catch around the populate pass
returns the entity unchanged when the pass throws.  The abstract pass `f`
stands for `populateNodes` together with any unexpected error it may
raise, which the shallow model cannot produce. -/
def populateLexicalWith (f : List JItem → Except Unit (List JItem)) (e : Entity) : Entity :=
  match lexicalItems e with
  | some items =>
    match f items with
    | .ok out => { e with content := .dObj (some (.rObj (some (.cArr out)))) }
    | .error _ => e
  | none => e

/-- `populateLexicalReferences` with the concrete populate pass, which in
the shallow model never throws. -/
def populateLexicalReferences (ctx : PopulateContext) (e : Entity) : Entity :=
  populateLexicalWith (fun l => .ok (populateNodes ctx l)) e

/-- One insertion into the JavaScript `Set` of media document ids
(`allMediaRefs.add(...)` keeps insertion order and drops duplicates). -/
def addMediaId (acc : List String) (d : String) : List String :=
  if d ∈ acc then acc else acc ++ [d]

/-- The extraction loop of `populateBulk` (controller lines 372 to 383):
for each entity whose lexical field passes the truthiness guard, extract
its references, add every media documentId to the shared set, and append
the entry references wholesale.  An exception thrown by the extractor is
not caught per entity, so it aborts the whole loop. -/
def bulkCollectAux : List Entity → List String × List EntryReference →
    Except Unit (List String × List EntryReference)
  | [], acc => .ok acc
  | e :: es, acc =>
    if truthyChildren (rootChildren e.content) then
      match extractReferences e.content with
      | .error u => .error u
      | .ok refs =>
        bulkCollectAux es
          (refs.media.foldl (fun a r => addMediaId a r.documentId) acc.1,
           acc.2 ++ refs.entries)
    else bulkCollectAux es acc

/-- The reference sets `populateBulk` hands to the resolver:
`Array.from(allMediaRefs)` and `allEntryRefs`. -/
def bulkCollect (es : List Entity) : Except Unit (List String × List EntryReference) :=
  bulkCollectAux es ([], [])

/-- The merge phase of `populateBulk` with an abstract per-entity populate
pass (the `Promise.all(entities.map(...))` of controller lines 403 to
407): each entity is populated independently against the shared context. -/
def populateBulkMerge (f : List JItem → Except Unit (List JItem)) (es : List Entity) : List Entity :=
  es.map (populateLexicalWith f)

/-- `populateBulk` end to end, with the backing-store resolver injected as
`resolve`: collect and deduplicate references, resolve them into a shared
context, then populate every entity.  An error from the extraction loop
escapes to the outer catch of the controller, which aborts the request. -/
def populateBulk (resolve : List String → List EntryReference → PopulateContext)
    (es : List Entity) : Except Unit (List Entity) :=
  match bulkCollect es with
  | .error u => .error u
  | .ok (ms, ents) => .ok (es.map (populateLexicalReferences (resolve ms ents)))

/-! ## Idempotence of the merger -/

theorem imageMeta_idem (p : Option Meta) (m : ResolvedMedia) :
    imageMeta (some (imageMeta p m)) m = imageMeta p m := by
  cases p <;> rfl

theorem entryMeta_idem (p : Option Meta) (e : ResolvedEntry) (t : Option JLit) :
    entryMeta (some (entryMeta p e t)) e t = entryMeta p e t := by
  cases p <;> rfl

theorem jsOrS_absorb (a b c : Option String) :
    jsOrS a (jsOrS b (jsOrS a (jsOrS b c))) = jsOrS a (jsOrS b c) := by
  by_cases ha : truthyS a = true <;> by_cases hb : truthyS b = true <;>
    simp [jsOrS, ha, hb]

theorem populateImageNode_type (ctx : PopulateContext) (f : NodeFields) :
    (populateImageNode ctx f).type = f.type := by
  unfold populateImageNode
  split <;> try rfl
  split <;> try rfl
  split <;> rfl

theorem populateEntryNode_type (ctx : PopulateContext) (f : NodeFields) :
    (populateEntryNode ctx f).type = f.type := by
  unfold populateEntryNode
  split <;> try rfl
  split <;> try rfl
  split <;> try rfl
  split <;> rfl

theorem populateImageNode_idem (ctx : PopulateContext) (f : NodeFields) :
    populateImageNode ctx (populateImageNode ctx f) = populateImageNode ctx f := by
  rcases hd : f.documentId with _ | d
  · have h1 : populateImageNode ctx f = f := by simp [populateImageNode, hd]
    rw [h1, h1]
  · rcases hm : ctx.populatedMedia with _ | ms
    · have h1 : populateImageNode ctx f = f := by simp [populateImageNode, hd, hm]
      rw [h1, h1]
    · by_cases hde : d = ""
      · have h1 : populateImageNode ctx f = f := by simp [populateImageNode, hd, hm, hde]
        rw [h1, h1]
      · rcases hf : ms.find? (fun m => decide (m.documentId = d)) with _ | m
        · have h1 : populateImageNode ctx f = f := by simp [populateImageNode, hd, hm, hde, hf]
          rw [h1, h1]
        · have h1 : populateImageNode ctx f =
              { f with src := jsOrS (thumbnailUrl m) (jsOrS m.url f.src),
                       metadata := some (imageMeta f.metadata m) } := by
            simp [populateImageNode, hd, hm, hde, hf]
          rw [h1]
          simp [populateImageNode, hd, hm, hde, hf, imageMeta_idem, jsOrS_absorb]

theorem populateEntryNode_idem (ctx : PopulateContext) (f : NodeFields) :
    populateEntryNode ctx (populateEntryNode ctx f) = populateEntryNode ctx f := by
  rcases hd : f.documentId with _ | d
  · have h1 : populateEntryNode ctx f = f := by simp [populateEntryNode, hd]
    rw [h1, h1]
  · rcases hc : f.contentType with _ | ct
    · have h1 : populateEntryNode ctx f = f := by simp [populateEntryNode, hd, hc]
      rw [h1, h1]
    · rcases he : ctx.populatedEntries with _ | es
      · have h1 : populateEntryNode ctx f = f := by simp [populateEntryNode, hd, hc, he]
        rw [h1, h1]
      · by_cases hde : d = ""
        · have h1 : populateEntryNode ctx f = f := by simp [populateEntryNode, hd, hc, he, hde]
          rw [h1, h1]
        · by_cases hce : ct = ""
          · have h1 : populateEntryNode ctx f = f := by
              simp [populateEntryNode, hd, hc, he, hde, hce]
            rw [h1, h1]
          · rcases hf : es.find? (fun e => decide (e.documentId = d)) with _ | e
            · have h1 : populateEntryNode ctx f = f := by
                simp [populateEntryNode, hd, hc, he, hde, hce, hf]
              rw [h1, h1]
            · rcases hT : findTitleField e with _ | c
              · have h1 : populateEntryNode ctx f =
                    { f with title := f.title,
                             metadata := some (entryMeta f.metadata e f.title),
                             data := some e } := by
                  simp [populateEntryNode, hd, hc, he, hde, hce, hf, hT]
                rw [h1]
                simp [populateEntryNode, hd, hc, he, hde, hce, hf, hT, entryMeta_idem]
              · have h1 : populateEntryNode ctx f =
                    { f with title := candidateValue e c,
                             metadata := some (entryMeta f.metadata e (candidateValue e c)),
                             data := some e } := by
                  simp [populateEntryNode, hd, hc, he, hde, hce, hf, hT]
                rw [h1]
                simp [populateEntryNode, hd, hc, he, hde, hce, hf, hT, entryMeta_idem]

theorem populateSwitch_idem (ctx : PopulateContext) (f : NodeFields) :
    populateSwitch ctx (populateSwitch ctx f) = populateSwitch ctx f := by
  by_cases h1 : f.type = some "strapi-image"
  · simp [populateSwitch, h1, populateImageNode_type, populateImageNode_idem]
  · by_cases h2 : f.type = some "strapi-entry"
    · simp [populateSwitch, h1, h2, populateEntryNode_type, populateEntryNode_idem]
    · simp [populateSwitch, h1, h2]

/-- C3, claim: merge is idempotent.  Merging a merged children list again
with the same populate context gives the same list. -/
theorem merge_idempotent (ctx : PopulateContext) (l : List JItem) :
    populateNodes ctx (populateNodes ctx l) = populateNodes ctx l := by
  induction l using populateNodes.induct ctx with
  | case1 => simp [populateNodes]
  | case2 v xs ih => simp [populateNodes, ih]
  | case3 f xs ih => simp [populateNodes, ih, populateSwitch_idem]
  | case4 f v xs ih => simp [populateNodes, ih, populateSwitch_idem]
  | case5 f cs xs ih1 ih2 => simp [populateNodes, ih1, ih2, populateSwitch_idem]

/-! ## Mutation of the merger input -/

/-- A populate context holding one resolved media record and no resolved
entries. -/
def ctxA : PopulateContext := { populatedMedia := some [mediaA], populatedEntries := some [] }

/-- A tree whose root is an image reference that misses the lookup (its
documentId is not among the resolved media) and whose child is an image
reference that hits it. -/
def treeMissWithHitChild : List JItem :=
  [.node { type := some "strapi-image", documentId := some "m0" } [.nodeNoChildren imageNodeA]]

/-- C2, counterexample: running the merger on `treeMissWithHitChild` under
`ctxA` writes the populated children into the missed reference node, so
the input tree is not left unchanged. -/
theorem merge_mutates_input_on_missed_reference :
    inputAfterNodes ctxA treeMissWithHitChild ≠ treeMissWithHitChild := by
  simp [inputAfterNodes, returnsInputNode, imageReturnsInput, populateNodes, populateSwitch,
    populateImageNode, imageMeta, thumbnailUrl, jsOrS, truthyS, ctxA, treeMissWithHitChild,
    mediaA, imageNodeA]

/-- C2, amended: the merger leaves the input tree unchanged provided no
reference node that carries a children array fails its guard or misses its
lookup; such a missed reference node is instead updated in place, its
children field ending up holding the populated children array. -/
theorem merge_no_input_mutation_without_aliased_miss (ctx : PopulateContext) (l : List JItem)
    (h : noAliasedChildNode ctx l = true) : inputAfterNodes ctx l = l := by
  induction l using inputAfterNodes.induct ctx with
  | case1 => simp [inputAfterNodes]
  | case2 v xs ih =>
    simp only [noAliasedChildNode] at h
    simp [inputAfterNodes, ih h]
  | case3 f xs ih =>
    simp only [noAliasedChildNode] at h
    simp [inputAfterNodes, ih h]
  | case4 f v xs ih =>
    simp only [noAliasedChildNode] at h
    simp [inputAfterNodes, ih h]
  | case5 f cs xs ih1 ih2 =>
    simp only [noAliasedChildNode, Bool.and_eq_true, Bool.not_eq_true'] at h
    obtain ⟨⟨hr, hcs⟩, hxs⟩ := h
    simp [inputAfterNodes, hr, ih1 hcs, ih2 hxs]

/-- A tree with a single hit image reference carrying a children array. -/
def treeAllHit : List JItem := [.node imageNodeA [.prim (.strV "x")]]

/-- Witness for the amended C2 theorem at a concrete tree whose only
reference node resolves. -/
theorem merge_no_input_mutation_witness :
    noAliasedChildNode ctxA treeAllHit = true ∧ inputAfterNodes ctxA treeAllHit = treeAllHit := by
  refine ⟨?_, merge_no_input_mutation_without_aliased_miss ctxA treeAllHit ?_⟩ <;>
    simp [noAliasedChildNode, returnsInputNode, imageReturnsInput, ctxA, treeAllHit,
      imageNodeA, mediaA]

/-! ## Entry lookup identity -/

/-- A resolved entry under content type b with documentId e1. -/
def entryB : ResolvedEntry :=
  { documentId := "e1"
    contentType := some "api::b.b"
    title := some (.strV "X") }

/-- An entry reference node pointing at documentId e1 under content type
a. -/
def entryNodeA : NodeFields :=
  { type := some "strapi-entry"
    documentId := some "e1"
    contentType := some "api::a.a"
    title := some (.strV "Old") }

/-- C1, counterexample: a resolved record with the same documentId but a
different contentType does populate the node; the merged node stores that
record in `data` and takes its title. -/
theorem entry_lookup_contentType_mismatch_populates :
    (populateEntryNode { populatedEntries := some [entryB] } entryNodeA).data = some entryB
    ∧ (populateEntryNode { populatedEntries := some [entryB] } entryNodeA).title
        = some (.strV "X")
    ∧ entryB.contentType ≠ entryNodeA.contentType := by
  refine ⟨?_, ?_, by decide⟩ <;>
    simp [populateEntryNode, entryNodeA, entryB, findTitleField, candidateValue, isTruthyString]

/-- C1, amended: the lookup matches on `documentId` alone.  Whenever the
node guard passes (truthy `documentId` and `contentType`) and some record
in the resolved list has the same `documentId`, the node is enriched with
the first such record, whatever its `contentType`. -/
theorem entry_lookup_by_documentId_only (ctx : PopulateContext) (f : NodeFields) (d : String)
    (es : List ResolvedEntry) (r : ResolvedEntry)
    (hd : f.documentId = some d) (hne : d ≠ "")
    (hct : truthyS f.contentType = true)
    (hes : ctx.populatedEntries = some es)
    (hf : es.find? (fun e => decide (e.documentId = d)) = some r) :
    (populateEntryNode ctx f).data = some r ∧ r.documentId = d := by
  rcases hc : f.contentType with _ | ct
  · rw [hc] at hct; simp [truthyS] at hct
  · have hce : ct ≠ "" := by
      rw [hc] at hct
      intro hh
      rw [hh] at hct
      simp [truthyS] at hct
    constructor
    · simp [populateEntryNode, hd, hc, hes, hne, hce, hf]
    · have := List.find?_some hf
      exact of_decide_eq_true this

/-- Witness for the amended C1 theorem: the concrete mismatched pair of
the counterexample discharges every hypothesis. -/
theorem entry_lookup_by_documentId_only_witness :
    (populateEntryNode { populatedEntries := some [entryB] } entryNodeA).data = some entryB
    ∧ entryB.documentId = "e1" :=
  entry_lookup_by_documentId_only { populatedEntries := some [entryB] } entryNodeA "e1"
    [entryB] entryB (by decide) (by decide) (by decide) rfl (by decide)

/-! ## Title field selection -/

/-- The resolved entry of spec scenario C: no title, name or label, but a
string headline. -/
def entryC : ResolvedEntry :=
  { documentId := "e1"
    contentType := some "api::post.post"
    headline := some (.strV "Hello") }

/-- The entry reference node of spec scenario C with a pre-existing
title. -/
def entryNodeC : NodeFields :=
  { type := some "strapi-entry"
    documentId := some "e1"
    contentType := some "api::post.post"
    title := some (.strV "Old") }

/-- C10, counterexample: merging does not leave the title of the node at
its pre-existing value when the resolved record carries a string
headline. -/
theorem scenarioC_title_not_preserved :
    (populateEntryNode { populatedEntries := some [entryC] } entryNodeC).title
      ≠ entryNodeC.title := by
  simp [populateEntryNode, entryNodeC, entryC, findTitleField, candidateValue, isTruthyString]

/-- C10, amended: `headline` is in the candidate list of
`findTitleField` (fourth position), so the merged node of scenario C takes
the headline value as its title. -/
theorem scenarioC_title_becomes_headline :
    findTitleField entryC = some "headline"
    ∧ (populateEntryNode { populatedEntries := some [entryC] } entryNodeC).title
        = some (.strV "Hello") := by
  constructor <;>
    simp [populateEntryNode, entryNodeC, entryC, findTitleField, candidateValue, isTruthyString]

/-! ## Totality of the extractor -/

/-- C4, counterexample: a children array containing a null element makes
the extractor throw (the code reads `node.type` with no null guard), so
extraction is not total over arbitrary tree-shaped input. -/
theorem extract_throws_on_null_child :
    extractReferences (.dObj (some (.rObj (some (.cArr [.prim .nullV]))))) = .error () := by
  simp [extractReferences, rootChildren, traverseNodes]

/-- C4, amended: `extract(null)` and `extract({})` return the empty
reference set; a non-null primitive element of a children array is skipped
without effect, as is a node carrying no `type` (whose children are still
traversed); but a null element of a children array throws. -/
theorem extract_total_except_null_children :
    extractReferences (.dNonObj .nullV) = .ok {}
    ∧ extractReferences (.dObj none) = .ok {}
    ∧ (∀ (v : JLit) (xs : List JItem) (st : ExtractedReferences),
        v ≠ .nullV → traverseNodes (.prim v :: xs) st = traverseNodes xs st)
    ∧ (∀ (f : NodeFields) (cs xs : List JItem) (st : ExtractedReferences),
        f.type = none →
        traverseNodes (.node f cs :: xs) st = (traverseNodes cs st).bind (traverseNodes xs))
    ∧ (∀ (xs : List JItem) (st : ExtractedReferences),
        traverseNodes (.prim .nullV :: xs) st = .error ()) := by
  refine ⟨rfl, rfl, ?_, ?_, ?_⟩
  · intro v xs st hv
    cases v <;> simp [traverseNodes] at hv ⊢
  · intro f cs xs st ht
    have hstep : extractStep st f = st := by simp [extractStep, ht]
    simp only [traverseNodes, hstep]
    cases traverseNodes cs st <;> simp [Except.bind]
  · intro xs st
    simp [traverseNodes]

/-- Witness for the amended C4 theorem: concrete skipped elements and a
concrete throwing element. -/
theorem extract_total_except_null_children_witness :
    traverseNodes [.prim (.strV "x")] {} = traverseNodes [] {}
    ∧ traverseNodes [.node {} [], .prim (.boolV false)] {}
        = (traverseNodes [] {}).bind (traverseNodes [.prim (.boolV false)])
    ∧ traverseNodes [.prim .nullV] {} = .error () :=
  ⟨extract_total_except_null_children.2.2.1 (.strV "x") [] {} (by decide),
   extract_total_except_null_children.2.2.2.1 {} [] [.prim (.boolV false)] {} rfl,
   extract_total_except_null_children.2.2.2.2 [] {}⟩

/-! ## Entry extraction without a content type -/

/-- An entry reference node with no `contentType`. -/
def entryNodeNoCT : NodeFields := { type := some "strapi-entry", documentId := some "e1" }

/-- A document whose only node is an entry reference with no
`contentType`. -/
def docEntryNoCT : EditorDoc :=
  .dObj (some (.rObj (some (.cArr [.nodeNoChildren entryNodeNoCT]))))

/-- C6, counterexample: the extractor checks only `node.documentId` before
appending an entry reference, so a node of the entry-reference type with
no `contentType` does contribute an element (with an absent content
type). -/
theorem extract_entry_missing_contentType_contributes :
    extractReferences docEntryNoCT
      = .ok { media := [], entries := [{ documentId := "e1", contentType := none }] } := by
  simp [extractReferences, rootChildren, docEntryNoCT, entryNodeNoCT, traverseNodes, extractStep]

/-- C6, amended: an entry reference is appended whenever the documentId of
the node is truthy; the contentType is copied as it is on the node and may
be absent.  Stated for a one-node document with an arbitrary optional
content type. -/
theorem extract_entry_appended_on_documentId_alone (d : String) (ct : Option String)
    (hne : d ≠ "") :
    extractReferences
      (.dObj (some (.rObj (some (.cArr
        [.nodeNoChildren { type := some "strapi-entry", documentId := some d, contentType := ct }])))))
    = .ok { media := [], entries := [{ documentId := d, contentType := ct }] } := by
  simp [extractReferences, rootChildren, traverseNodes, extractStep, hne]

/-- Witness for the amended C6 theorem at a concrete document with an
absent content type. -/
theorem extract_entry_appended_on_documentId_alone_witness :
    extractReferences
      (.dObj (some (.rObj (some (.cArr
        [.nodeNoChildren { type := some "strapi-entry", documentId := some "e9", contentType := none }])))))
    = .ok { media := [], entries := [{ documentId := "e9", contentType := none }] } :=
  extract_entry_appended_on_documentId_alone "e9" none (by decide)

/-! ## Change detector set semantics -/

/-- C9, claim: for a deduplicated reference set, the change detector
reports no change on any permutation of the two lists, and reports a
change when a fresh element (by identity) is appended to either list. -/
theorem changed_set_semantics (S : ExtractedReferences)
    (hdm : (S.media.map MediaReference.documentId).Nodup)
    (hde : (S.entries.map (fun r => (r.documentId, r.contentType))).Nodup) :
    (∀ S' : ExtractedReferences, S'.media.Perm S.media → S'.entries.Perm S.entries →
      hasReferencesChanged S S' = false)
    ∧ (∀ x : MediaReference, (∀ m ∈ S.media, m.documentId ≠ x.documentId) →
        hasReferencesChanged S { S with media := S.media ++ [x] } = true)
    ∧ (∀ y : EntryReference,
        (∀ e ∈ S.entries, ¬(e.documentId = y.documentId ∧ e.contentType = y.contentType)) →
        hasReferencesChanged S { S with entries := S.entries ++ [y] } = true) := by
  refine ⟨?_, ?_, ?_⟩
  · intro S' hm he
    have h1 : S'.media.length = S.media.length := hm.length_eq
    have h2 : S'.entries.length = S.entries.length := he.length_eq
    have h3 : ∀ nm ∈ S'.media,
        S.media.any (fun om => decide (om.documentId = nm.documentId)) = true := by
      intro nm hnm
      exact List.any_eq_true.mpr ⟨nm, hm.mem_iff.mp hnm, by simp⟩
    have h4 : ∀ ne ∈ S'.entries,
        S.entries.any
          (fun oe => decide (oe.documentId = ne.documentId ∧ oe.contentType = ne.contentType))
          = true := by
      intro ne hne
      rw [List.any_eq_true]
      refine ⟨ne, he.mem_iff.mp hne, ?_⟩
      simp
    have h5 : S'.media.any
        (fun nm => !S.media.any (fun om => decide (om.documentId = nm.documentId))) = false := by
      rw [List.any_eq_false]
      intro nm hnm
      simp [h3 nm hnm]
    have h6 : S'.entries.any
        (fun ne => !S.entries.any
          (fun oe => decide (oe.documentId = ne.documentId ∧ oe.contentType = ne.contentType)))
        = false := by
      rw [List.any_eq_false]
      intro ne hne
      rw [h4 ne hne]
      simp
    unfold hasReferencesChanged
    rw [if_neg (by omega), if_neg (by simp only [h5]; simp), if_neg (by omega),
      if_neg (by simp only [h6]; simp)]
  · intro x hx
    simp [hasReferencesChanged]
  · intro y hy
    have h1 : S.entries.length ≠ S.entries.length + 1 := by omega
    simp [hasReferencesChanged, h1]

/-- A concrete deduplicated reference set. -/
def refSetW : ExtractedReferences :=
  { media := [{ documentId := "m1" }, { documentId := "m2" }]
    entries := [{ documentId := "e1", contentType := some "A" }] }

/-- The same set with the media list reordered. -/
def refSetWPerm : ExtractedReferences :=
  { media := [{ documentId := "m2" }, { documentId := "m1" }]
    entries := [{ documentId := "e1", contentType := some "A" }] }

/-- Witness for C9 at concrete sets: a permutation is no change, a fresh
media id or a fresh entry pair (same id, other content type) is a
change. -/
theorem changed_set_semantics_witness :
    hasReferencesChanged refSetW refSetWPerm = false
    ∧ hasReferencesChanged refSetW
        { refSetW with media := refSetW.media ++ [{ documentId := "m3" }] } = true
    ∧ hasReferencesChanged refSetW
        { refSetW with entries := refSetW.entries ++ [{ documentId := "e1", contentType := some "B" }] }
        = true := by
  have h := changed_set_semantics refSetW (by decide) (by decide)
  exact ⟨h.1 refSetWPerm (by decide) (by decide), h.2.1 _ (by decide), h.2.2 _ (by decide)⟩

/-! ## Extraction order and deduplication

The spec side: the pre-order occurrence lists of reference identities
(duplicates kept) and first-occurrence deduplication.  The theorems below
relate the accumulator-threading extractor to these. -/

/-- Modelled from the spec: the media identity an extractor visit of one
node contributes, before deduplication (type tag is the media reference
tag and documentId is non-empty). -/
def mediaOccOf (f : NodeFields) : List String :=
  if f.type = some "strapi-image" then
    match f.documentId with
    | some d => if d = "" then [] else [d]
    | none => []
  else []

/-- Modelled from the spec: the entry identity pair one node contributes,
before deduplication. -/
def entryOccOf (f : NodeFields) : List (String × Option String) :=
  if f.type = some "strapi-entry" then
    match f.documentId with
    | some d => if d = "" then [] else [(d, f.contentType)]
    | none => []
  else []

/-- Modelled from the spec: all media identities in a depth-first
pre-order walk, duplicates kept. -/
def occMedia : List JItem → List String
  | [] => []
  | .prim _ :: xs => occMedia xs
  | .nodeNoChildren f :: xs => mediaOccOf f ++ occMedia xs
  | .nodeBadChildren f _ :: xs => mediaOccOf f ++ occMedia xs
  | .node f cs :: xs => mediaOccOf f ++ (occMedia cs ++ occMedia xs)

/-- Modelled from the spec: all entry identity pairs in a depth-first
pre-order walk, duplicates kept. -/
def occEntries : List JItem → List (String × Option String)
  | [] => []
  | .prim _ :: xs => occEntries xs
  | .nodeNoChildren f :: xs => entryOccOf f ++ occEntries xs
  | .nodeBadChildren f _ :: xs => entryOccOf f ++ occEntries xs
  | .node f cs :: xs => entryOccOf f ++ (occEntries cs ++ occEntries xs)

/-- Append an element unless it is already present. -/
def insertNew {α : Type} [DecidableEq α] (acc : List α) (x : α) : List α :=
  if x ∈ acc then acc else acc ++ [x]

/-- Modelled from the spec: keep the first occurrence of every element, in
order. -/
def firstOccur {α : Type} [DecidableEq α] (l : List α) : List α :=
  l.foldl insertNew []

/-- Insertion of a media identity into the accumulator as the extractor
performs it. -/
def insM (acc : List MediaReference) (d : String) : List MediaReference :=
  if acc.any (fun r => decide (r.documentId = d)) then acc
  else acc ++ [{ documentId := d }]

/-- Insertion of an entry identity pair into the accumulator as the
extractor performs it. -/
def insE (acc : List EntryReference) (p : String × Option String) : List EntryReference :=
  if acc.any (fun r => decide (r.documentId = p.1 ∧ r.contentType = p.2)) then acc
  else acc ++ [{ documentId := p.1, contentType := p.2 }]

theorem extractStep_eq (st : ExtractedReferences) (f : NodeFields) :
    extractStep st f =
      { media := (mediaOccOf f).foldl insM st.media,
        entries := (entryOccOf f).foldl insE st.entries } := by
  by_cases h1 : f.type = some "strapi-image"
  · have h2 : f.type ≠ some "strapi-entry" := by rw [h1]; decide
    rcases hd : f.documentId with _ | d
    · simp [extractStep, mediaOccOf, entryOccOf, h1, h2, hd]
    · by_cases he : d = "" <;>
        simp [extractStep, mediaOccOf, entryOccOf, insM, h1, h2, hd, he] <;>
        split <;> rfl
  · by_cases h2 : f.type = some "strapi-entry"
    · rcases hd : f.documentId with _ | d
      · simp [extractStep, mediaOccOf, entryOccOf, h1, h2, hd]
      · by_cases he : d = "" <;>
          simp [extractStep, mediaOccOf, entryOccOf, insE, h1, h2, hd, he] <;>
          split <;> rfl
    · simp [extractStep, mediaOccOf, entryOccOf, h1, h2]

theorem traverseNodes_ok (items : List JItem) (st : ExtractedReferences) :
    ∀ res : ExtractedReferences, traverseNodes items st = .ok res →
      res.media = (occMedia items).foldl insM st.media
      ∧ res.entries = (occEntries items).foldl insE st.entries := by
  induction items, st using traverseNodes.induct with
  | case1 st =>
    intro res h
    simp only [traverseNodes, Except.ok.injEq] at h
    subst h
    simp [occMedia, occEntries]
  | case2 tail st =>
    intro res h
    simp [traverseNodes] at h
  | case3 v xs st hv ih =>
    intro res h
    cases v with
    | nullV => exact absurd rfl hv
    | boolV b =>
      simp only [traverseNodes] at h
      have := ih res h
      simpa [occMedia, occEntries] using this
    | numV n =>
      simp only [traverseNodes] at h
      have := ih res h
      simpa [occMedia, occEntries] using this
    | strV s =>
      simp only [traverseNodes] at h
      have := ih res h
      simpa [occMedia, occEntries] using this
  | case4 f xs st ih =>
    intro res h
    simp only [traverseNodes] at h
    obtain ⟨hm, he⟩ := ih res h
    rw [extractStep_eq] at hm he
    constructor <;> simp [occMedia, occEntries, List.foldl_append, hm, he]
  | case5 f v xs st ih =>
    intro res h
    simp only [traverseNodes] at h
    obtain ⟨hm, he⟩ := ih res h
    rw [extractStep_eq] at hm he
    constructor <;> simp [occMedia, occEntries, List.foldl_append, hm, he]
  | case6 f cs xs st st2 heq ih1 ih2 =>
    intro res h
    simp only [traverseNodes, heq] at h
    obtain ⟨hm1, he1⟩ := ih1 st2 heq
    rw [extractStep_eq] at hm1 he1
    obtain ⟨hm2, he2⟩ := ih2 res h
    rw [hm1] at hm2
    rw [he1] at he2
    constructor <;> simp [occMedia, occEntries, List.foldl_append, hm2, he2]
  | case7 f cs xs st u heq ih =>
    intro res h
    simp [traverseNodes, heq] at h

theorem insM_map (acc : List MediaReference) (d : String) :
    (insM acc d).map MediaReference.documentId
      = insertNew (acc.map MediaReference.documentId) d := by
  by_cases h : acc.any (fun r => decide (r.documentId = d)) = true
  · have hm : d ∈ acc.map MediaReference.documentId := by
      rw [List.any_eq_true] at h
      obtain ⟨r, hr, hrd⟩ := h
      exact List.mem_map.mpr ⟨r, hr, of_decide_eq_true hrd⟩
    simp [insM, h, insertNew, hm]
  · have hm : d ∉ acc.map MediaReference.documentId := by
      intro hc
      obtain ⟨r, hr, hrd⟩ := List.mem_map.mp hc
      exact h (List.any_eq_true.mpr ⟨r, hr, decide_eq_true hrd⟩)
    simp [insM, h, insertNew, hm]

theorem insE_map (acc : List EntryReference) (p : String × Option String) :
    (insE acc p).map (fun r => (r.documentId, r.contentType))
      = insertNew (acc.map (fun r => (r.documentId, r.contentType))) p := by
  by_cases h : acc.any (fun r => decide (r.documentId = p.1 ∧ r.contentType = p.2)) = true
  · have hex : ∃ x ∈ acc, x.documentId = p.1 ∧ x.contentType = p.2 := by
      rw [List.any_eq_true] at h
      obtain ⟨r, hr, hrd⟩ := h
      exact ⟨r, hr, of_decide_eq_true hrd⟩
    have hm : p ∈ acc.map (fun r => (r.documentId, r.contentType)) := by
      obtain ⟨r, hr, hp⟩ := hex
      exact List.mem_map.mpr ⟨r, hr, by rw [hp.1, hp.2]⟩
    simp [insE, h, insertNew, hm, hex]
  · have hex : ¬ ∃ x ∈ acc, x.documentId = p.1 ∧ x.contentType = p.2 := by
      intro hc
      obtain ⟨r, hr, hrd⟩ := hc
      exact h (List.any_eq_true.mpr ⟨r, hr, decide_eq_true hrd⟩)
    have hm : p ∉ acc.map (fun r => (r.documentId, r.contentType)) := by
      intro hc
      obtain ⟨r, hr, hrd⟩ := List.mem_map.mp hc
      exact hex ⟨r, hr, by rw [← hrd]; exact ⟨rfl, rfl⟩⟩
    simp [insE, h, insertNew, hm, hex]

theorem map_foldl_insM (l : List String) :
    ∀ acc : List MediaReference,
      (l.foldl insM acc).map MediaReference.documentId
        = l.foldl insertNew (acc.map MediaReference.documentId) := by
  induction l with
  | nil => intro acc; rfl
  | cons d l ih => intro acc; simp only [List.foldl_cons, ih, insM_map]

theorem map_foldl_insE (l : List (String × Option String)) :
    ∀ acc : List EntryReference,
      (l.foldl insE acc).map (fun r => (r.documentId, r.contentType))
        = l.foldl insertNew (acc.map (fun r => (r.documentId, r.contentType))) := by
  induction l with
  | nil => intro acc; rfl
  | cons p l ih => intro acc; simp only [List.foldl_cons, ih, insE_map]

theorem insertNew_nodup {α : Type} [DecidableEq α] (acc : List α) (x : α)
    (h : acc.Nodup) : (insertNew acc x).Nodup := by
  by_cases hm : x ∈ acc
  · simpa [insertNew, hm] using h
  · simp [insertNew, hm, h, List.nodup_append]

theorem nodup_foldl_insertNew {α : Type} [DecidableEq α] (l : List α) :
    ∀ acc : List α, acc.Nodup → (l.foldl insertNew acc).Nodup := by
  induction l with
  | nil => intro acc h; exact h
  | cons x l ih => intro acc h; exact ih (insertNew acc x) (insertNew_nodup acc x h)

/-- Modelled from the spec: the pre-order media occurrence list of a whole
document. -/
def docOccMedia (d : EditorDoc) : List String :=
  match rootChildren d with
  | some (.cArr items) => occMedia items
  | _ => []

/-- Modelled from the spec: the pre-order entry occurrence list of a whole
document. -/
def docOccEntries (d : EditorDoc) : List (String × Option String) :=
  match rootChildren d with
  | some (.cArr items) => occEntries items
  | _ => []

/-- C5, claim: whenever extraction succeeds, the media list carries no
duplicate documentId, the entry list carries no duplicate identity pair,
and both lists equal the first-occurrence deduplication of the pre-order
occurrence walk of the document. -/
theorem extract_dedup_and_preorder (d : EditorDoc) (refs : ExtractedReferences)
    (h : extractReferences d = .ok refs) :
    (refs.media.map MediaReference.documentId).Nodup
    ∧ (refs.entries.map (fun r => (r.documentId, r.contentType))).Nodup
    ∧ refs.media.map MediaReference.documentId = firstOccur (docOccMedia d)
    ∧ refs.entries.map (fun r => (r.documentId, r.contentType)) = firstOccur (docOccEntries d) := by
  rcases hr : rootChildren d with _ | cv
  · simp only [extractReferences, hr, Except.ok.injEq] at h
    subst h
    simp [docOccMedia, docOccEntries, hr, firstOccur]
  · cases cv with
    | cNotArr v =>
      simp only [extractReferences, hr, Except.ok.injEq] at h
      subst h
      simp [docOccMedia, docOccEntries, hr, firstOccur]
    | cArr items =>
      simp only [extractReferences, hr] at h
      obtain ⟨hm, he⟩ := traverseNodes_ok items {} refs h
      have hm2 : refs.media.map MediaReference.documentId = firstOccur (occMedia items) := by
        rw [hm, map_foldl_insM]
        rfl
      have he2 : refs.entries.map (fun r => (r.documentId, r.contentType))
          = firstOccur (occEntries items) := by
        rw [he, map_foldl_insE]
        rfl
      refine ⟨?_, ?_, ?_, ?_⟩
      · rw [hm2]; exact nodup_foldl_insertNew _ [] List.nodup_nil
      · rw [he2]; exact nodup_foldl_insertNew _ [] List.nodup_nil
      · rw [hm2]; simp [docOccMedia, hr]
      · rw [he2]; simp [docOccEntries, hr]

/-- An image reference repeated at two depths plus an entry reference
repeated twice. -/
def docDup : EditorDoc :=
  .dObj (some (.rObj (some (.cArr
    [.nodeNoChildren { type := some "strapi-image", documentId := some "m1" },
     .node { type := some "strapi-entry", documentId := some "e1", contentType := some "A" }
       [.nodeNoChildren { type := some "strapi-image", documentId := some "m1" }],
     .nodeNoChildren { type := some "strapi-entry", documentId := some "e1", contentType := some "A" }]))))

/-- The extraction result for `docDup`. -/
def refsDup : ExtractedReferences :=
  { media := [{ documentId := "m1" }]
    entries := [{ documentId := "e1", contentType := some "A" }] }

/-- Witness for C5 at a document in which each reference occurs twice. -/
theorem extract_dedup_and_preorder_witness :
    (refsDup.media.map MediaReference.documentId).Nodup
    ∧ (refsDup.entries.map (fun r => (r.documentId, r.contentType))).Nodup
    ∧ refsDup.media.map MediaReference.documentId = firstOccur (docOccMedia docDup)
    ∧ refsDup.entries.map (fun r => (r.documentId, r.contentType))
        = firstOccur (docOccEntries docDup) :=
  extract_dedup_and_preorder docDup refsDup
    (by simp [extractReferences, rootChildren, docDup, refsDup, traverseNodes, extractStep])

/-! ## Bulk reference collection -/

theorem mem_insertNew {α : Type} [DecidableEq α] (acc : List α) (x y : α) :
    y ∈ insertNew acc x ↔ y ∈ acc ∨ y = x := by
  by_cases hm : x ∈ acc
  · simp only [insertNew, if_pos hm]
    exact ⟨Or.inl, fun h => h.elim id (fun he => he ▸ hm)⟩
  · simp [insertNew, hm]

theorem mem_foldl_insertNew {α : Type} [DecidableEq α] (l : List α) :
    ∀ (acc : List α) (y : α), y ∈ l.foldl insertNew acc ↔ y ∈ acc ∨ y ∈ l := by
  induction l with
  | nil => simp
  | cons x l ih =>
    intro acc y
    rw [List.foldl_cons, ih, mem_insertNew, List.mem_cons]
    tauto

theorem addMediaId_eq : addMediaId = @insertNew String _ := rfl

theorem media_fold_eq (refs : List MediaReference) (acc : List String) :
    refs.foldl (fun a r => addMediaId a r.documentId) acc
      = (refs.map MediaReference.documentId).foldl insertNew acc := by
  rw [List.foldl_map, addMediaId_eq]

theorem bulkCollectAux_spec (es : List Entity) :
    ∀ (acc : List String × List EntryReference) (ms : List String) (ents : List EntryReference),
      bulkCollectAux es acc = .ok (ms, ents) →
      (acc.1.Nodup → ms.Nodup)
      ∧ ∀ d : String, d ∈ ms ↔ d ∈ acc.1 ∨
          ∃ e ∈ es, truthyChildren (rootChildren e.content) = true ∧
            ∃ refs, extractReferences e.content = .ok refs
              ∧ d ∈ refs.media.map MediaReference.documentId := by
  induction es with
  | nil =>
    intro acc ms ents h
    simp only [bulkCollectAux, Except.ok.injEq] at h
    subst h
    simp
  | cons e es ih =>
    intro acc ms ents h
    by_cases hg : truthyChildren (rootChildren e.content) = true
    · rcases hx : extractReferences e.content with u | refs
      · rw [bulkCollectAux, if_pos hg, hx] at h
        exact Except.noConfusion h
      · rw [bulkCollectAux, if_pos hg, hx] at h
        obtain ⟨hnd, hmem⟩ := ih _ ms ents h
        constructor
        · intro hacc
          apply hnd
          rw [media_fold_eq]
          exact nodup_foldl_insertNew _ _ hacc
        · intro d
          rw [hmem d]
          simp only [media_fold_eq, mem_foldl_insertNew, List.mem_cons]
          constructor
          · rintro (⟨ha | hk⟩ | ⟨e2, he2, hg2, refs2, hx2, hk2⟩)
            · exact Or.inl ha
            · exact Or.inr ⟨e, Or.inl rfl, hg, refs, hx, hk⟩
            · exact Or.inr ⟨e2, Or.inr he2, hg2, refs2, hx2, hk2⟩
          · rintro (ha | ⟨e2, he2, hg2, refs2, hx2, hk2⟩)
            · exact Or.inl (Or.inl ha)
            · rcases he2 with rfl | he2
              · rw [hx] at hx2
                injection hx2 with hx2
                subst hx2
                exact Or.inl (Or.inr hk2)
              · exact Or.inr ⟨e2, he2, hg2, refs2, hx2, hk2⟩
    · rw [bulkCollectAux, if_neg hg] at h
      obtain ⟨hnd, hmem⟩ := ih _ ms ents h
      refine ⟨hnd, fun d => ?_⟩
      rw [hmem d]
      constructor
      · rintro (ha | ⟨e2, he2, hg2, refs2, hx2, hk2⟩)
        · exact Or.inl ha
        · exact Or.inr ⟨e2, List.mem_cons_of_mem e he2, hg2, refs2, hx2, hk2⟩
      · rintro (ha | ⟨e2, he2, hg2, refs2, hx2, hk2⟩)
        · exact Or.inl ha
        · rcases List.mem_cons.mp he2 with he2 | he2
          · subst he2
            exact absurd hg2 hg
          · exact Or.inr ⟨e2, he2, hg2, refs2, hx2, hk2⟩

/-- An entity whose lexical field holds one entry reference (e1 under
content type a). -/
def entE1 : Entity :=
  { eid := 1
    content := .dObj (some (.rObj (some (.cArr
      [.nodeNoChildren { type := some "strapi-entry", documentId := some "e1",
                         contentType := some "api::a.a" }])))) }

/-- A second entity with the same entry reference. -/
def entE2 : Entity := { entE1 with eid := 2 }

/-- C7, counterexample: two entities referencing the same entry identity
pair yield a resolver input in which the pair appears twice, not once
(`allEntryRefs` is concatenated with no cross-entity deduplication). -/
theorem bulk_entry_pair_passed_twice :
    bulkCollect [entE1, entE2]
      = .ok ([], [{ documentId := "e1", contentType := some "api::a.a" },
                  { documentId := "e1", contentType := some "api::a.a" }])
    ∧ ([{ documentId := "e1", contentType := some "api::a.a" },
        { documentId := "e1", contentType := some "api::a.a" }] : List EntryReference).count
        { documentId := "e1", contentType := some "api::a.a" } = 2 := by
  constructor
  · simp [bulkCollect, bulkCollectAux, entE1, entE2, truthyChildren, rootChildren,
      extractReferences, traverseNodes, extractStep, addMediaId]
  · decide

/-- C7, amended: the media identifier list handed to the resolver is
deduplicated across the whole batch (duplicate-free, and it holds exactly
the media documentIds extracted from entities passing the guard); the
entry references, by contrast, are concatenated per entity with no
cross-batch deduplication, so a pair occurring in several entities is
passed once per entity. -/
theorem bulk_media_dedup_across_batch (es : List Entity) (ms : List String)
    (ents : List EntryReference) (h : bulkCollect es = .ok (ms, ents)) :
    ms.Nodup
    ∧ ∀ d : String, d ∈ ms ↔
        ∃ e ∈ es, truthyChildren (rootChildren e.content) = true ∧
          ∃ refs, extractReferences e.content = .ok refs
            ∧ d ∈ refs.media.map MediaReference.documentId := by
  obtain ⟨hnd, hmem⟩ := bulkCollectAux_spec es ([], []) ms ents h
  refine ⟨hnd List.nodup_nil, fun d => ?_⟩
  rw [hmem d]
  simp

/-- An entity whose lexical field holds one media reference m1. -/
def entM1 : Entity :=
  { eid := 1
    content := .dObj (some (.rObj (some (.cArr
      [.nodeNoChildren { type := some "strapi-image", documentId := some "m1" }])))) }

/-- A second entity with the same media reference. -/
def entM2 : Entity := { entM1 with eid := 2 }

/-- Witness for the amended C7 theorem, which is also spec scenario D: two
entities sharing the media documentId m1 give the resolver the
deduplicated identifier list of size one. -/
theorem bulk_media_dedup_across_batch_witness :
    bulkCollect [entM1, entM2] = .ok (["m1"], [])
    ∧ (["m1"] : List String).Nodup := by
  have hb : bulkCollect [entM1, entM2] = .ok (["m1"], []) := by
    simp [bulkCollect, bulkCollectAux, entM1, entM2, truthyChildren, rootChildren,
      extractReferences, traverseNodes, extractStep, addMediaId]
  exact ⟨hb, (bulk_media_dedup_across_batch [entM1, entM2] ["m1"] [] hb).1⟩

/-! ## Failure isolation in bulk populate -/

/-- An entity whose lexical field has a null child, on which the extractor
throws. -/
def entNullChild : Entity :=
  { eid := 3, content := .dObj (some (.rObj (some (.cArr [.prim .nullV])))) }

/-- C8, counterexample: an extraction error on one entity aborts the whole
bulk operation (the extraction loop of the controller is not wrapped in a
per-entity try/catch), so the other entity is not returned at all, let
alone populated. -/
theorem bulk_extraction_error_aborts :
    populateBulk (fun _ _ => {}) [entM1, entNullChild] = .error () := by
  simp [populateBulk, bulkCollect, bulkCollectAux, entM1, entNullChild, truthyChildren,
    rootChildren, extractReferences, traverseNodes, extractStep, addMediaId]

theorem populateLexicalWith_error (f : List JItem → Except Unit (List JItem)) (e : Entity)
    (items : List JItem) (h1 : lexicalItems e = some items) (h2 : f items = .error ()) :
    populateLexicalWith f e = e := by
  simp [populateLexicalWith, h1, h2]

/-- C8, amended: an unexpected error during MERGING for a single entity is
isolated by the try/catch of populateLexicalReferences: the batch keeps
its length, every output position depends only on its own entity, and an
entity whose populate pass throws is returned in its original form.  An
unexpected error during extraction, by contrast, aborts the whole bulk
operation (see the counterexample). -/
theorem bulk_merge_failure_isolated (f : List JItem → Except Unit (List JItem))
    (es : List Entity) (i : Nat) :
    (populateBulkMerge f es).length = es.length
    ∧ (populateBulkMerge f es).get? i = (es.get? i).map (populateLexicalWith f)
    ∧ (∀ e items, es.get? i = some e → lexicalItems e = some items → f items = .error () →
        (populateBulkMerge f es).get? i = some e) := by
  have hmap : (populateBulkMerge f es).get? i = (es.get? i).map (populateLexicalWith f) := by
    simp [populateBulkMerge]
  refine ⟨by simp [populateBulkMerge], hmap, ?_⟩
  intro e items h1 h2 h3
  rw [hmap, h1]
  simp [populateLexicalWith_error f e items h2 h3]

/-- Witness for the amended C8 theorem: a populate pass that always throws
leaves the concrete entity in its original form. -/
theorem bulk_merge_failure_isolated_witness :
    (populateBulkMerge (fun _ => .error ()) [entM1]).get? 0 = some entM1 :=
  (bulk_merge_failure_isolated (fun _ => .error ()) [entM1] 0).2.2 entM1
    [.nodeNoChildren { type := some "strapi-image", documentId := some "m1" }] rfl rfl rfl
